import Mathlib

/-!
# Verification of the Hjert scheduler core (`src/kernel/hjert-core/sched.h`)

Shallow embedding of the `Hjert::Core` scheduler: `Stack`, `Task` and `Sched`.
Machine pointers (`uintptr_t`) are modelled as `Nat` with arithmetic taken
modulo `2^64` where the C code performs wrapping unsigned arithmetic.
Kernel memory is modelled as a byte map `Nat → UInt8` indexed by absolute
addresses.

The bodies of `Stack::create`, `Task::create`, `Sched::start(task, ip, sp)`
and `Sched::schedule` are declared in the header but their definitions are
not part of the source excerpt; those are modelled from the specification
and carry a `Modelled from the spec:` doc comment.  Everything else is
translated directly from the header.
-/

namespace Hjert

/-- Width of a machine pointer (`uintptr_t`): 64 bits. -/
def ptrWidth : Nat := 2 ^ 64

/-- Wrapping unsigned subtraction on `uintptr_t`/`size_t`: `a - b` mod `2^64`.
This is the semantics of `_sp -= bytes.len()` in C. -/
def sub64 (a b : Nat) : Nat := (a + (ptrWidth - b % ptrWidth)) % ptrWidth

/-- Byte memory: absolute address to byte content. -/
def Mem : Type := Nat → UInt8

/-- Write one byte at an (address mod `2^64`). -/
def Mem.store (m : Mem) (a : Nat) (b : UInt8) : Mem :=
  fun x => if x = a % ptrWidth then b else m x

/-- `memcpy`: write the bytes of `bs` at consecutive addresses starting at `a`. -/
def Mem.storeBytes (m : Mem) (a : Nat) (bs : List UInt8) : Mem :=
  match bs with
  | [] => m
  | b :: rest => (m.store a b).storeBytes (a + 1) rest

/-- Read `k` consecutive bytes starting at address `a`. -/
def Mem.loadBytes (m : Mem) (a : Nat) (k : Nat) : List UInt8 :=
  match k with
  | 0 => []
  | k + 1 => m (a % ptrWidth) :: m.loadBytes (a + 1) k

/-- The `Stack` of `sched.h`:
`Hal::HeapMem _mem` (an owned region, kept as base address and length) and
`uintptr_t _sp`. -/
structure Stack where
  base : Nat
  length : Nat
  sp : Nat
  mem : Mem

/-- `void saveSp(uintptr_t sp) { _sp = sp; }` — stores the argument
unconditionally, with no validation. -/
def Stack.saveSp (st : Stack) (sp : Nat) : Stack := { st with sp := sp }

/-- `uintptr_t loadSp() { return _sp; }` -/
def Stack.loadSp (st : Stack) : Nat := st.sp

/-- `void push(Bytes bytes) { _sp -= bytes.len(); memcpy((void *)_sp, bytes.buf(), bytes.len()); }`
The pointer decrement wraps like C unsigned arithmetic. -/
def Stack.push (st : Stack) (bs : List UInt8) : Stack :=
  let spNew := sub64 st.sp bs.length
  { st with sp := spNew, mem := st.mem.storeBytes spNew bs }

/-- Little-endian raw representation of a 64-bit value, as `reinterpret_cast`
of a `uintptr_t` produces on the target architecture (8 bytes). -/
def bytesOf64 (v : Nat) : List UInt8 :=
  (List.range 8).map fun i => UInt8.ofNat (v / 2 ^ (8 * i) % 256)

/-- `template <typename T> void push(T t) { push(Bytes{reinterpret_cast<uint8_t *>(&t), sizeof(t)}); }`
instantiated at a 64-bit scalar (`T = uintptr_t`): pushes the raw 8-byte
representation of the value. -/
def Stack.push64 (st : Stack) (v : Nat) : Stack :=
  st.push (bytesOf64 v)

/-- `static constexpr size_t DEFAULT_SIZE = kib(16);` where `kib(n) = n * 1024`. -/
def Stack.DEFAULT_SIZE : Nat := 16 * 1024

/-- `sp` lies inside the owned region `[base, base + length)`. -/
def Stack.inRegion (st : Stack) : Prop :=
  st.base ≤ st.sp ∧ st.sp < st.base + st.length

instance (st : Stack) : Decidable st.inRegion := by
  unfold Stack.inRegion; infer_instance

/-- Errors surfaced through `Res<T>`.  The specification names allocation
failure (kernel heap exhaustion) as the only recoverable failure of this
core. -/
inductive Error where
  | outOfMemory
deriving DecidableEq, Repr

/-- A kernel heap allocator: given a requested size, returns the base
address of a fresh region, or `none` when memory is exhausted.  This stands
for `Hal::HeapMem` allocation, which is outside the excerpt. -/
def Allocator : Type := Nat → Option Nat

/-- Modelled from the spec: the body of `static Res<Stack> Stack::create()`
is not in the source excerpt.  Per the spec it allocates a region of the
default size (16 KiB) from kernel heap memory, fails with an allocation
error if memory is exhausted, and initializes the stack pointer to the top
of the region (`base + length`), since the stack grows downward.  The
region is pre-zeroed. -/
def Stack.create (alloc : Allocator) : Except Error Stack :=
  match alloc Stack.DEFAULT_SIZE with
  | some base =>
      .ok { base := base, length := Stack.DEFAULT_SIZE,
            sp := base + Stack.DEFAULT_SIZE, mem := fun _ => 0 }
  | none => .error .outOfMemory

/-- The `Task` of `sched.h`: `Stack _stack; Tick _sliceStart = 0; Tick _sliceEnd = 0;`
with constructor `Task(Stack stack) : _stack(std::move(stack))`. -/
structure Task where
  stack : Stack
  sliceStart : Nat := 0
  sliceEnd : Nat := 0

/-- The `Task(Stack)` constructor: moves the stack in, leaves the slice
window at its member initializers `= 0`. -/
def Task.mk0 (stack : Stack) : Task := { stack := stack }

/-- `Stack &stack() { return _stack; }` -/
def Task.getStack (t : Task) : Stack := t.stack

/-- Modelled from the spec: the body of `static Res<Strong<Task>> Task::create()`
is not in the source excerpt.  Per the spec it allocates a `Stack`
(propagating its failure) and constructs a `Task` with
`sliceStart = sliceEnd = 0`. -/
def Task.create (alloc : Allocator) : Except Error Task :=
  match Stack.create alloc with
  | .ok st => .ok (Task.mk0 st)
  | .error e => .error e

/-- Identity of a `Strong<Task>` reference: tasks are shared by reference
counting, so two references are the same task exactly when they point at
the same allocation.  Modelled as an abstract identifier. -/
abbrev TaskId : Type := Nat

/-- The `Sched` of `sched.h`: tick counter, task registry
(`Vec<Strong<Task>>`, kept in insertion order), and the distinguished
`_curr` and `_next` references.  The lock serializes access and has no
observable content in a sequential shallow embedding.  Each registry entry
pairs the reference identity with the referenced `Task` value. -/
structure Sched where
  tick : Nat
  tasks : List (TaskId × Task)
  curr : TaskId
  next : TaskId

/-- The registry in insertion order, as reference identities. -/
def Sched.ids (s : Sched) : List TaskId := s.tasks.map Prod.fst

/-- `Sched(Strong<Task> bootTask) : _tasks{bootTask}, _curr(bootTask), _next(bootTask)` -/
def Sched.mkBoot (bootId : TaskId) (boot : Task) : Sched :=
  { tick := 0, tasks := [(bootId, boot)], curr := bootId, next := bootId }

/-- Modelled from the spec: the body of
`Res<> Sched::start(Strong<Task> task, uintptr_t ip, uintptr_t sp)` is not
in the source excerpt.  Per the spec it builds the architecture's initial
resume frame on the task's stack starting from the given stack pointer
(return address / entry trampoline = `ip`), records the resulting stack
pointer, and admits the task into the registry (appended to the
insertion-ordered `Vec`) as READY.  Frame construction via `Stack::push`
cannot fail, so admission always succeeds. -/
def Sched.startSp (s : Sched) (tid : TaskId) (t : Task) (ip sp : Nat) : Sched :=
  let armed := { t with stack := (t.stack.saveSp sp).push64 ip }
  { s with tasks := s.tasks ++ [(tid, armed)] }

/-- `Res<> start(Strong<Task> task, uintptr_t ip) { return start(task, ip, task->stack().loadSp()); }`
— translated directly from the header. -/
def Sched.start (s : Sched) (tid : TaskId) (t : Task) (ip : Nat) : Sched :=
  s.startSp tid t ip t.getStack.loadSp

/-- Round-robin selection over the registry ring: starting just after the
current task's position and wrapping around, take the first READY task;
when no READY task exists, keep the current task selected
(self-re-election). -/
def rrPick (ids : List TaskId) (curr : TaskId) (ready : TaskId → Bool) : TaskId :=
  let i := ids.indexOf curr
  let ring := ids.drop (i + 1) ++ ids.take (i + 1)
  match ring.find? ready with
  | some t => t
  | none => curr

/-- Modelled from the spec: the body of `void Sched::schedule()` is not in
the source excerpt.  Per the spec, under the registry lock it (2) advances
the tick counter by one, (3) selects the next task among READY tasks by
round-robin over the registry starting just after the current task,
keeping the current task when no other READY task exists, (4) sets the
selected task's slice window to `[tick, tick + fixedQuantum)`, and
(5)/(6) context-switches to the selection when it differs from the current
task (after which both `_curr` and `_next` denote the selection), or
returns without switching when it is the current task.  Task execution
states (READY / BLOCKED / TERMINATED) are not fields of the source
structures; they are supplied as the readiness map `ready` maintained by
the rest of the kernel, and the fixed quantum as `quantum`. -/
def Sched.schedule (s : Sched) (ready : TaskId → Bool) (quantum : Nat) : Sched :=
  let tick := s.tick + 1
  let sel := rrPick s.ids s.curr ready
  let tasks := s.tasks.map fun p =>
    if p.1 = sel then (p.1, { p.2 with sliceStart := tick, sliceEnd := tick + quantum })
    else p
  if sel = s.curr then
    { s with tick := tick, tasks := tasks }
  else
    { s with tick := tick, tasks := tasks, curr := sel, next := sel }

/-- Modelled from the spec: `schedule()`'s failure semantics.  `schedule()`
returns no error to its caller (its C declaration is `void schedule();`);
an internal invariant violation — the registry being empty — is fatal
(kernel panic), modelled as `none`, never as a returned error value. -/
def Sched.scheduleChecked (s : Sched) (ready : TaskId → Bool) (quantum : Nat) :
    Option Sched :=
  if s.tasks.isEmpty then none
  else some (s.schedule ready quantum)

/-- Modelled from the spec: the task-creation entry point as seen from the
scheduler.  Creating a task does not touch the scheduler state: a failed
creation leaves no task in the registry (the failed task never enters it). -/
def Sched.createTask (s : Sched) (alloc : Allocator) :
    Sched × Except Error Task :=
  (s, Task.create alloc)

/-- The steady-state scheduler invariant of the spec: the registry is never
empty, and `_curr` and `_next` are members of the registry (or `_next` is
identical to `_curr`). -/
def Sched.Inv (s : Sched) : Prop :=
  s.ids ≠ [] ∧ s.curr ∈ s.ids ∧ (s.next ∈ s.ids ∨ s.next = s.curr)

instance (s : Sched) : Decidable s.Inv := by
  unfold Sched.Inv; infer_instance

/-- States reachable from construction with a bootstrap task by any
sequence of `start` / `schedule` operations. -/
inductive Sched.Reachable : Sched → Prop where
  | boot (bootId : TaskId) (boot : Task) : Sched.Reachable (Sched.mkBoot bootId boot)
  | step_startSp {s : Sched} (tid : TaskId) (t : Task) (ip sp : Nat) :
      Sched.Reachable s → Sched.Reachable (s.startSp tid t ip sp)
  | step_schedule {s : Sched} (ready : TaskId → Bool) (quantum : Nat) :
      Sched.Reachable s → Sched.Reachable (s.schedule ready quantum)

/-! ## Stack lemmas -/

theorem sub64_eq_sub {a b : Nat} (hb : b ≤ a) (ha : a < ptrWidth) :
    sub64 a b = a - b := by
  have hbw : b < ptrWidth := lt_of_le_of_lt hb ha
  simp only [sub64, Nat.mod_eq_of_lt hbw]
  have h1 : a + (ptrWidth - b) = ptrWidth + (a - b) := by omega
  rw [h1, Nat.add_mod_left, Nat.mod_eq_of_lt (by omega)]

theorem Mem.storeBytes_get_lt (bs : List UInt8) (m : Mem) (a x : Nat)
    (hw : a + bs.length ≤ ptrWidth) (hx : x < a) :
    m.storeBytes a bs x = m x := by
  induction bs generalizing m a with
  | nil => rfl
  | cons b rest ih =>
      simp only [Mem.storeBytes]
      rw [ih (m.store a b) (a + 1) (by simp at hw ⊢; omega) (by omega)]
      simp only [Mem.store]
      rw [Nat.mod_eq_of_lt (by simp at hw; omega)]
      simp [Nat.ne_of_lt hx]

theorem Mem.storeBytes_loadBytes (bs : List UInt8) (m : Mem) (a : Nat)
    (hw : a + bs.length ≤ ptrWidth) :
    (m.storeBytes a bs).loadBytes a bs.length = bs := by
  induction bs generalizing m a with
  | nil => rfl
  | cons b rest ih =>
      simp only [Mem.storeBytes, List.length_cons, Mem.loadBytes]
      have hhead : (m.store a b).storeBytes (a + 1) rest (a % ptrWidth) = b := by
        rw [Nat.mod_eq_of_lt (by simp only [List.length_cons] at hw; omega)]
        rw [Mem.storeBytes_get_lt rest (m.store a b) (a + 1) a
            (by simp only [List.length_cons] at hw; omega) (by omega)]
        simp only [Mem.store]
        rw [Nat.mod_eq_of_lt (by simp only [List.length_cons] at hw; omega)]
        simp
      rw [hhead, ih (m.store a b) (a + 1)
          (by simp only [List.length_cons] at hw; omega)]

theorem Stack.push_sp (st : Stack) (bs : List UInt8)
    (hs : st.sp < ptrWidth) (hl : bs.length ≤ st.sp) :
    (st.push bs).sp = st.sp - bs.length := by
  simp only [Stack.push]
  exact sub64_eq_sub hl hs

theorem Stack.push_readback (st : Stack) (bs : List UInt8)
    (hs : st.sp < ptrWidth) (hl : bs.length ≤ st.sp) :
    (st.push bs).mem.loadBytes ((st.push bs).sp) bs.length = bs := by
  have hsp := Stack.push_sp st bs hs hl
  simp only [Stack.push] at hsp ⊢
  rw [hsp]
  exact Mem.storeBytes_loadBytes bs st.mem (st.sp - bs.length) (by omega)

theorem bytesOf64_length (v : Nat) : (bytesOf64 v).length = 8 := by
  simp [bytesOf64]

/-! ## Claim theorems: Stack -/

/-- C2, counterexample: the claim that no `Stack` operation can move `sp`
outside `[base, base + length)` is false — `saveSp` stores its argument
with no validation, so it moves the pointer of an in-region stack to
address 0, outside the region. -/
theorem C2_counterexample :
    (⟨4096, 16384, 20470, fun _ => 0⟩ : Stack).inRegion ∧
    ¬ ((⟨4096, 16384, 20470, fun _ => 0⟩ : Stack).saveSp 0).inRegion := by
  decide

/-- C2 (amended): `push` moves `sp` downward by exactly the payload length
and keeps it inside `[base, base + length)` whenever the payload fits above
`base`; `saveSp` stores its argument unvalidated, so keeping `sp` inside
the region is the trusted callers' responsibility, not enforced by
`Stack`. -/
theorem C2_stack_pointer_discipline (st : Stack) (bs : List UInt8) (v : Nat) :
    (st.saveSp v).sp = v ∧
    (st.sp < ptrWidth → st.inRegion → st.base + bs.length ≤ st.sp →
      (st.push bs).inRegion ∧ (st.push bs).sp = st.sp - bs.length ∧
      (st.push bs).sp ≤ st.sp) := by
  refine ⟨rfl, fun hw hr hb => ?_⟩
  have hl : bs.length ≤ st.sp := by omega
  have hsp := Stack.push_sp st bs hw hl
  have hbase : (st.push bs).base = st.base := rfl
  have hlen : (st.push bs).length = st.length := rfl
  obtain ⟨hr1, hr2⟩ := hr
  refine ⟨⟨?_, ?_⟩, hsp, ?_⟩ <;> rw [hsp] <;> try rw [hbase]
  · omega
  · rw [hlen]; omega
  · omega

/-- C2 (amended), witness at a concrete stack and payload. -/
theorem C2_witness :
    ((⟨4096, 16384, 20470, fun _ => 1⟩ : Stack).push [2, 3]).inRegion ∧
    ((⟨4096, 16384, 20470, fun _ => 1⟩ : Stack).push [2, 3]).sp = 20468 := by
  have h := (C2_stack_pointer_discipline ⟨4096, 16384, 20470, fun _ => 1⟩ [2, 3] 0).2
      (by norm_num [ptrWidth]) (by decide) (by decide)
  exact ⟨h.1, by rw [h.2.1]; decide⟩

/-- C3: `push(bytes)` subtracts the payload length from the stack pointer
and the payload is readable at the new pointer; the typed `push<T>` is the
push of the value's raw `sizeof(T)`-byte representation, so it lowers the
pointer by exactly `sizeof(T) = 8` for a pointer-sized scalar.  The
hypotheses say the decrement does not underflow the address space, which
is where C's unsigned arithmetic would wrap. -/
theorem C3_push_semantics (st : Stack) (bs : List UInt8) (v : Nat)
    (hw : st.sp < ptrWidth) (hl : bs.length ≤ st.sp) :
    (st.push bs).sp = st.sp - bs.length ∧
    (st.push bs).mem.loadBytes (st.push bs).sp bs.length = bs ∧
    st.push64 v = st.push (bytesOf64 v) ∧
    (bytesOf64 v).length = 8 ∧
    (8 ≤ st.sp → (st.push64 v).sp = st.sp - 8) := by
  refine ⟨Stack.push_sp st bs hw hl, Stack.push_readback st bs hw hl, rfl,
    bytesOf64_length v, fun h8 => ?_⟩
  have h := Stack.push_sp st (bytesOf64 v) hw (by rw [bytesOf64_length]; exact h8)
  rw [bytesOf64_length] at h
  exact h

/-- C3, witness: pushing two bytes onto a concrete stack lowers the
pointer by 2 and the bytes read back at the new pointer. -/
theorem C3_witness :
    ((⟨4096, 16384, 20470, fun _ => 0⟩ : Stack).push [7, 9]).sp = 20468 ∧
    ((⟨4096, 16384, 20470, fun _ => 0⟩ : Stack).push [7, 9]).mem.loadBytes
        (((⟨4096, 16384, 20470, fun _ => 0⟩ : Stack).push [7, 9]).sp) 2 =
      [7, 9] := by
  have h := C3_push_semantics ⟨4096, 16384, 20470, fun _ => 0⟩ [7, 9] 0
      (by norm_num [ptrWidth]) (by decide)
  exact ⟨by rw [h.1]; decide, h.2.1⟩

/-- C8: `Stack::create` allocates the 16 KiB default-size region from the
kernel heap; on success the returned stack's pointer is the top of the
region (`base + length`); it fails exactly when the allocator is
exhausted, and the allocation error is its only failure mode. -/
theorem C8_stack_create (alloc : Allocator) :
    (∀ st, Stack.create alloc = .ok st →
        st.length = Stack.DEFAULT_SIZE ∧ Stack.DEFAULT_SIZE = 16 * 1024 ∧
        st.sp = st.base + st.length ∧ alloc Stack.DEFAULT_SIZE = some st.base) ∧
    (∀ e, Stack.create alloc = .error e →
        e = .outOfMemory ∧ alloc Stack.DEFAULT_SIZE = none) ∧
    ((Stack.create alloc).isOk ↔ (alloc Stack.DEFAULT_SIZE).isSome) := by
  cases h : alloc Stack.DEFAULT_SIZE with
  | none =>
      refine ⟨fun st hst => ?_, fun e he => ?_, ?_⟩
      · simp [Stack.create, h] at hst
      · cases e
        exact ⟨rfl, rfl⟩
      · simp [Stack.create, h, Except.isOk, Except.toBool]
  | some base =>
      refine ⟨fun st hst => ?_, fun e he => ?_, ?_⟩
      · simp only [Stack.create, h, Except.ok.injEq] at hst
        subst hst
        exact ⟨rfl, rfl, rfl, rfl⟩
      · simp [Stack.create, h] at he
      · simp [Stack.create, h, Except.isOk, Except.toBool]

/-- C8, witness: a concrete allocator handing out base 4096 yields a stack
with `sp = 4096 + 16384`. -/
theorem C8_witness :
    (⟨4096, 16384, 20480, fun _ => 0⟩ : Stack).length = Stack.DEFAULT_SIZE ∧
    Stack.DEFAULT_SIZE = 16 * 1024 ∧
    (20480 : Nat) = 4096 + 16384 ∧
    (fun _ => some 4096 : Allocator) Stack.DEFAULT_SIZE = some 4096 := by
  have h := (C8_stack_create (fun _ => some 4096)).1
      ⟨4096, 16384, 20480, fun _ => 0⟩ rfl
  exact ⟨h.1, h.2.1, h.2.2.1, h.2.2.2⟩

/-! ## Claim theorems: Task -/

/-- C9: `Task::create` allocates a `Stack`, propagating its allocation
failure as its own failure; on success the task holds that stack and
`sliceStart = sliceEnd = 0`; and task creation never touches the
scheduler, so a failed creation leaves the registry unchanged. -/
theorem C9_task_create (alloc : Allocator) :
    (∀ e, Stack.create alloc = .error e → Task.create alloc = .error e) ∧
    (∀ st, Stack.create alloc = .ok st →
        Task.create alloc = .ok (Task.mk0 st) ∧ (Task.mk0 st).sliceStart = 0 ∧
        (Task.mk0 st).sliceEnd = 0 ∧ (Task.mk0 st).stack = st) ∧
    (∀ s : Sched, (s.createTask alloc).1.tasks = s.tasks) := by
  refine ⟨fun e he => ?_, fun st hst => ?_, fun s => rfl⟩
  · simp [Task.create, he]
  · simp [Task.create, hst, Task.mk0]

/-- C9, witness: with an exhausted allocator, task creation fails with the
propagated out-of-memory error. -/
theorem C9_witness : Task.create (fun _ => none) = .error .outOfMemory :=
  (C9_task_create (fun _ => none)).1 .outOfMemory rfl

/-! ## Claim theorems: Sched construction and start -/

/-- C10: immediately after construction from a bootstrap task the registry
holds exactly that task and `_curr` and `_next` are both that task. -/
theorem C10_boot_state (bootId : TaskId) (boot : Task) :
    (Sched.mkBoot bootId boot).tasks = [(bootId, boot)] ∧
    (Sched.mkBoot bootId boot).curr = bootId ∧
    (Sched.mkBoot bootId boot).next = bootId ∧
    (Sched.mkBoot bootId boot).next = (Sched.mkBoot bootId boot).curr :=
  ⟨rfl, rfl, rfl, rfl⟩

/-- C10, witness at a concrete bootstrap task. -/
theorem C10_witness :
    (Sched.mkBoot 0 (Task.mk0 ⟨0, 16384, 16384, fun _ => 0⟩)).tasks =
      [(0, Task.mk0 ⟨0, 16384, 16384, fun _ => 0⟩)] ∧
    (Sched.mkBoot 0 (Task.mk0 ⟨0, 16384, 16384, fun _ => 0⟩)).curr = 0 ∧
    (Sched.mkBoot 0 (Task.mk0 ⟨0, 16384, 16384, fun _ => 0⟩)).next = 0 ∧
    (Sched.mkBoot 0 (Task.mk0 ⟨0, 16384, 16384, fun _ => 0⟩)).next =
      (Sched.mkBoot 0 (Task.mk0 ⟨0, 16384, 16384, fun _ => 0⟩)).curr :=
  C10_boot_state 0 (Task.mk0 ⟨0, 16384, 16384, fun _ => 0⟩)

/-- C6: the two-argument `start(task, ip)` equals the three-argument
`start(task, ip, sp)` whenever the explicit `sp` is the task's current
stack pointer `task->stack().loadSp()` — in the source the former is
defined as exactly that call. -/
theorem C6_start_two_arg (s : Sched) (tid : TaskId) (t : Task) (ip sp : Nat)
    (h : sp = t.getStack.loadSp) :
    s.start tid t ip = s.startSp tid t ip sp := by
  rw [h]; rfl

/-- C6, witness at a concrete scheduler, task and entry point. -/
theorem C6_witness :
    (Sched.mkBoot 0 (Task.mk0 ⟨0, 16384, 16384, fun _ => 0⟩)).start 1
        (Task.mk0 ⟨16384, 16384, 32768, fun _ => 0⟩) 77 =
    (Sched.mkBoot 0 (Task.mk0 ⟨0, 16384, 16384, fun _ => 0⟩)).startSp 1
        (Task.mk0 ⟨16384, 16384, 32768, fun _ => 0⟩) 77 32768 :=
  C6_start_two_arg _ 1 _ 77 32768 rfl

/-! ## Scheduler lemmas -/

theorem List.mem_rotation {x : TaskId} {l : List TaskId} (n : Nat) (hx : x ∈ l) :
    x ∈ l.drop n ++ l.take n := by
  rw [List.mem_append, Or.comm, ← List.mem_append, List.take_append_drop]
  exact hx

theorem rotation_subset {l : List TaskId} (n : Nat) : l.drop n ++ l.take n ⊆ l := by
  intro x hx
  rcases List.mem_append.1 hx with h | h
  · exact List.drop_subset n l h
  · exact List.take_subset n l h

theorem rrPick_mem {ids : List TaskId} {curr : TaskId} (ready : TaskId → Bool)
    (hc : curr ∈ ids) : rrPick ids curr ready ∈ ids := by
  unfold rrPick
  cases hfind : (ids.drop (ids.indexOf curr + 1) ++
      ids.take (ids.indexOf curr + 1)).find? ready with
  | none => simpa [hfind] using hc
  | some t =>
      simp only [hfind]
      exact rotation_subset _ (List.mem_of_find?_eq_some hfind)

theorem rrPick_avoids_blocked {ids : List TaskId} {curr t : TaskId}
    {ready : TaskId → Bool} (hb : ready t = false)
    (h : t ≠ curr ∨ ∃ x ∈ ids, ready x = true) :
    rrPick ids curr ready ≠ t := by
  unfold rrPick
  cases hfind : (ids.drop (ids.indexOf curr + 1) ++
      ids.take (ids.indexOf curr + 1)).find? ready with
  | some y =>
      simp only [hfind]
      intro hyt
      have hy := List.find?_some hfind
      rw [hyt, hb] at hy
      exact Bool.false_ne_true hy
  | none =>
      simp only [hfind]
      rcases h with h | ⟨x, hx, hrx⟩
      · exact fun e => h e.symm
      · exfalso
        have hnone := List.find?_eq_none.1 hfind x
            (List.mem_rotation _ hx)
        rw [hrx] at hnone
        exact hnone rfl

theorem map_fst_slice_update (sel : TaskId) (tick q : Nat)
    (l : List (TaskId × Task)) :
    (l.map fun p =>
        if p.1 = sel then (p.1, { p.2 with sliceStart := tick, sliceEnd := tick + q })
        else p).map Prod.fst = l.map Prod.fst := by
  induction l with
  | nil => rfl
  | cons p rest ih =>
      simp only [List.map_cons, ih]
      by_cases h : p.1 = sel <;> simp [h]

theorem Sched.ids_schedule (s : Sched) (ready : TaskId → Bool) (q : Nat) :
    (s.schedule ready q).ids = s.ids := by
  simp only [Sched.schedule]
  split <;> exact map_fst_slice_update _ _ _ s.tasks

theorem Sched.curr_schedule (s : Sched) (ready : TaskId → Bool) (q : Nat) :
    (s.schedule ready q).curr = rrPick s.ids s.curr ready := by
  simp only [Sched.schedule]
  split <;> simp_all

theorem Sched.next_schedule (s : Sched) (ready : TaskId → Bool) (q : Nat) :
    (s.schedule ready q).next =
      if rrPick s.ids s.curr ready = s.curr then s.next
      else rrPick s.ids s.curr ready := by
  simp only [Sched.schedule]
  split <;> simp_all

theorem Sched.ids_startSp (s : Sched) (tid : TaskId) (t : Task) (ip sp : Nat) :
    (s.startSp tid t ip sp).ids = s.ids ++ [tid] := by
  simp [Sched.startSp, Sched.ids]

theorem Sched.curr_startSp (s : Sched) (tid : TaskId) (t : Task) (ip sp : Nat) :
    (s.startSp tid t ip sp).curr = s.curr := rfl

theorem Sched.next_startSp (s : Sched) (tid : TaskId) (t : Task) (ip sp : Nat) :
    (s.startSp tid t ip sp).next = s.next := rfl

/-- The steady-state invariant holds at boot and is preserved by every
operation; proved by induction over reachability. -/
theorem Sched.reachable_inv {s : Sched} (h : s.Reachable) : s.Inv := by
  induction h with
  | boot bootId boot => exact ⟨by simp [Sched.mkBoot, Sched.ids], by
      simp [Sched.mkBoot, Sched.ids], Or.inr rfl⟩
  | step_startSp tid t ip sp _ ih =>
      obtain ⟨h1, h2, h3⟩ := ih
      refine ⟨?_, ?_, ?_⟩
      · simp [Sched.ids_startSp]
      · rw [Sched.ids_startSp, Sched.curr_startSp]
        exact List.mem_append_left _ h2
      · rw [Sched.ids_startSp, Sched.next_startSp, Sched.curr_startSp]
        rcases h3 with h3 | h3
        · exact Or.inl (List.mem_append_left _ h3)
        · exact Or.inr h3
  | step_schedule ready q _ ih =>
      obtain ⟨h1, h2, h3⟩ := ih
      refine ⟨?_, ?_, ?_⟩
      · simp [Sched.ids_schedule, h1]
      · rw [Sched.ids_schedule, Sched.curr_schedule]
        exact rrPick_mem ready h2
      · rw [Sched.ids_schedule, Sched.next_schedule, Sched.curr_schedule]
        split
        · rcases h3 with h3 | h3
          · exact Or.inl h3
          · rename_i heq
            exact Or.inr (h3.trans heq.symm)
        · exact Or.inr rfl

/-- Iterated `schedule()` with every task READY, as in the round-robin
scenario of the spec: `runRR q n` performs `n` successive `schedule()`
calls with the all-READY readiness map. -/
def Sched.runRR (s : Sched) (q : Nat) : Nat → Sched
  | 0 => s
  | n + 1 => (s.runRR q n).schedule (fun _ => true) q

/-- Round-robin selection on a four-task registry of distinct tasks, all
READY: from the task at position `r` the pick is the task at position
`(r + 1) % 4`. -/
theorem rrPick4 (t0 a b c : TaskId) (h01 : t0 ≠ a) (h02 : t0 ≠ b)
    (h03 : t0 ≠ c) (h12 : a ≠ b) (h13 : a ≠ c) (h23 : b ≠ c)
    (r : Nat) (hr : r < 4) :
    rrPick [t0, a, b, c] ([t0, a, b, c].getD r t0) (fun _ => true) =
      [t0, a, b, c].getD ((r + 1) % 4) t0 := by
  interval_cases r <;>
    simp_all [rrPick, List.indexOf_cons_self, List.indexOf_cons_ne,
      List.find?, List.getD]

/-! ## Claim theorems: Sched scheduling -/

/-- C4: at every reachable scheduler state the registry is nonempty, the
current task is a member of the registry, and the next task is a member of
the registry or identical to the current task; this holds after
construction with the bootstrap task and is preserved by `start` and
`schedule`. -/
theorem C4_registry_invariant (s : Sched) (h : s.Reachable) :
    s.ids ≠ [] ∧ s.curr ∈ s.ids ∧ (s.next ∈ s.ids ∨ s.next = s.curr) :=
  Sched.reachable_inv h

/-- C4, witness: the invariant at the concrete state reached by boot, one
`start`, and one `schedule`. -/
theorem C4_witness :
    let s := ((Sched.mkBoot 0 (Task.mk0 ⟨0, 16384, 16384, fun _ => 0⟩)).startSp 1
        (Task.mk0 ⟨16384, 16384, 32768, fun _ => 0⟩) 7 32768).schedule
        (fun _ => true) 5
    s.ids ≠ [] ∧ s.curr ∈ s.ids ∧ (s.next ∈ s.ids ∨ s.next = s.curr) :=
  C4_registry_invariant _ (Sched.Reachable.step_schedule _ _
    (Sched.Reachable.step_startSp _ _ _ _ (Sched.Reachable.boot _ _)))

/-- C7: on every reachable state, `schedule()` returns no error to its
caller — the checked entry point (whose `none` models the fatal panic on
an empty registry, the only internal invariant violation) always completes
with the new scheduler state. -/
theorem C7_schedule_total (s : Sched) (ready : TaskId → Bool) (q : Nat)
    (h : s.Reachable) :
    s.scheduleChecked ready q = some (s.schedule ready q) := by
  have hinv := Sched.reachable_inv h
  have hne : s.tasks ≠ [] := fun he => hinv.1 (by simp [Sched.ids, he])
  simp [Sched.scheduleChecked, hne]

/-- C7, witness: scheduling on the freshly booted scheduler completes. -/
theorem C7_witness :
    (Sched.mkBoot 0 (Task.mk0 ⟨0, 16384, 16384, fun _ => 0⟩)).scheduleChecked
        (fun _ => true) 5 =
      some ((Sched.mkBoot 0 (Task.mk0 ⟨0, 16384, 16384, fun _ => 0⟩)).schedule
        (fun _ => true) 5) :=
  C7_schedule_total _ _ _ (Sched.Reachable.boot _ _)

/-- C5, counterexample: when the current task has been transitioned to
BLOCKED and no READY task exists, the selection step keeps the current
task selected (the spec's self-re-election fallback), so a BLOCKED task is
selected without having been transitioned back to READY: with tasks 0
(current) and 1 both blocked, `schedule()` selects task 0. -/
theorem C5_counterexample :
    (((Sched.mkBoot 0 (Task.mk0 ⟨0, 16384, 16384, fun _ => 0⟩)).startSp 1
        (Task.mk0 ⟨16384, 16384, 32768, fun _ => 0⟩) 7 32768).schedule
        (fun _ => false) 5).curr = 0 ∧
    (fun _ => false : TaskId → Bool) 0 = false :=
  ⟨rfl, rfl⟩

/-- C5 (amended): a task transitioned to BLOCKED is never selected by
`schedule()`'s selection step — unless it is the current task and no READY
task exists in the registry, in which case the self-re-election fallback
keeps the current task selected. -/
theorem C5_blocked_never_selected (s : Sched) (t : TaskId)
    (ready : TaskId → Bool) (q : Nat) (hb : ready t = false)
    (h : t ≠ s.curr ∨ ∃ x ∈ s.ids, ready x = true) :
    (s.schedule ready q).curr ≠ t := by
  rw [Sched.curr_schedule]
  exact rrPick_avoids_blocked hb h

/-- C5 (amended), witness: with task 0 (current) blocked and task 1 READY,
the selection is not the blocked task 0. -/
theorem C5_witness :
    (((Sched.mkBoot 0 (Task.mk0 ⟨0, 16384, 16384, fun _ => 0⟩)).startSp 1
        (Task.mk0 ⟨16384, 16384, 32768, fun _ => 0⟩) 7 32768).schedule
        (fun i => i == 1) 5).curr ≠ 0 :=
  C5_blocked_never_selected _ 0 _ 5 rfl (Or.inr ⟨1, by decide, rfl⟩)

/-- Round-robin run invariant: starting from the scheduler holding the
bootstrap task `t0` and tasks `a`, `b`, `c` admitted by `start()` in that
order, after `n` all-READY `schedule()` calls the registry is still
`[t0, a, b, c]` in insertion order and the current task is the one at
position `n % 4`. -/
theorem runRR_invariant (t0 a b c : TaskId) (T0 TA TB TC : Task)
    (ipA ipB ipC q : Nat) (h01 : t0 ≠ a) (h02 : t0 ≠ b) (h03 : t0 ≠ c)
    (h12 : a ≠ b) (h13 : a ≠ c) (h23 : b ≠ c) (n : Nat) :
    (((((Sched.mkBoot t0 T0).start a TA ipA).start b TB ipB).start c
          TC ipC).runRR q n).ids = [t0, a, b, c] ∧
    (((((Sched.mkBoot t0 T0).start a TA ipA).start b TB ipB).start c
          TC ipC).runRR q n).curr = [t0, a, b, c].getD (n % 4) t0 := by
  induction n with
  | zero =>
      constructor
      · simp only [Sched.runRR, Sched.start, Sched.ids_startSp]
        rfl
      · rfl
  | succ n ih =>
      obtain ⟨hids, hcurr⟩ := ih
      have hlt : n % 4 < 4 := Nat.mod_lt _ (by norm_num)
      constructor
      · rw [Sched.runRR, Sched.ids_schedule, hids]
      · rw [Sched.runRR, Sched.curr_schedule, hids, hcurr,
          rrPick4 t0 a b c h01 h02 h03 h12 h13 h23 (n % 4) hlt]
        have hmod : (n % 4 + 1) % 4 = (n + 1) % 4 := by omega
        rw [hmod]

/-- C1: round-robin selection order is registry insertion order — with the
bootstrap task `t0` current and distinct tasks `a`, `b`, `c` admitted by
`start()` in that order, all tasks READY, the current task after `n`
successive `schedule()` calls is the registry entry at position `n % 4`,
i.e. the run visits `t0, a, b, c, t0, a, …` deterministically, starting
just after the current task's position and wrapping around. -/
theorem C1_round_robin_order (t0 a b c : TaskId) (T0 TA TB TC : Task)
    (ipA ipB ipC q : Nat) (h01 : t0 ≠ a) (h02 : t0 ≠ b) (h03 : t0 ≠ c)
    (h12 : a ≠ b) (h13 : a ≠ c) (h23 : b ≠ c) (n : Nat) :
    (((((Sched.mkBoot t0 T0).start a TA ipA).start b TB ipB).start c
          TC ipC).runRR q n).curr = [t0, a, b, c].getD (n % 4) t0 :=
  (runRR_invariant t0 a b c T0 TA TB TC ipA ipB ipC q h01 h02 h03 h12 h13
    h23 n).2

/-- C1, witness: with concrete tasks 0, 1, 2, 3 the fifth `schedule()`
call makes task 1 current again (`5 % 4 = 1`). -/
theorem C1_witness :
    (((((Sched.mkBoot 0 (Task.mk0 ⟨0, 16384, 16384, fun _ => 0⟩)).start 1
        (Task.mk0 ⟨16384, 16384, 32768, fun _ => 0⟩) 11).start 2
        (Task.mk0 ⟨32768, 16384, 49152, fun _ => 0⟩) 12).start 3
        (Task.mk0 ⟨49152, 16384, 65536, fun _ => 0⟩) 13).runRR 5 5).curr = 1 := by
  have h := C1_round_robin_order 0 1 2 3
      (Task.mk0 ⟨0, 16384, 16384, fun _ => 0⟩)
      (Task.mk0 ⟨16384, 16384, 32768, fun _ => 0⟩)
      (Task.mk0 ⟨32768, 16384, 49152, fun _ => 0⟩)
      (Task.mk0 ⟨49152, 16384, 65536, fun _ => 0⟩)
      11 12 13 5 (by decide) (by decide) (by decide) (by decide) (by decide)
      (by decide) 5
  simpa using h

end Hjert
